import Mathlib

/-!
Verification development for the GitMentor profile-analysis pipeline.

The TypeScript services are shallowly embedded as pure Lean functions:
* the GitHub service (`GithubService`): `handleRateLimitError`, `getUserRepositories`,
  `getDeveloperProfile`;
* the OpenAI service (`OpenAIService`): `prepareProfileData`, the bullet-list section
  parsers (`getStrengths`, ...), and the orchestrator `analyzeDeveloperProfile`.

External I/O (Octokit and the completion service) is represented by explicit input data:
the repository listing returned by the data source, the per-repository language maps,
parent-repository lookups and commit counts, the completion texts, and the outcomes of
the five section-analyzer calls.  JavaScript exceptions are represented with `Except`,
optional / possibly-`undefined` fields with `Option`, and JavaScript objects used as
string-keyed maps with insertion-ordered association lists.
-/

namespace GitMentor

/-! ### Basic string and list utilities shared by the embeddings -/

/-- The whitespace characters matched by the JavaScript regex class `\s`
(restricted to ASCII, which is all that the embedded strings use). -/
def isJsSpace (c : Char) : Bool :=
  c = ' ' || c = '\t' || c = '\n' || c = '\r' || c = Char.ofNat 11 || c = Char.ofNat 12

/-- Model of `String.prototype.trim`: remove whitespace from both ends (on char lists). -/
def trimChars (l : List Char) : List Char :=
  ((l.dropWhile isJsSpace).reverse.dropWhile isJsSpace).reverse

/-- Model of `String.prototype.toLowerCase` (ASCII range, which covers the reserved handle). -/
def jsToLower (s : String) : String :=
  ⟨s.data.map Char.toLower⟩

/-- Model of `Array.prototype.join(sep)`. -/
def joinWithSep (sep : String) : List String → String
  | [] => ""
  | [s] => s
  | s :: rest => s ++ sep ++ joinWithSep sep rest

/-- Model of `Array.prototype.join(', ')`. -/
def commaJoin (l : List String) : String :=
  joinWithSep ", " l

/-- JavaScript `x || d` for a nullable string `x`: `null`/`undefined` and `""` are falsy. -/
def jsOrStr (o : Option String) (d : String) : String :=
  match o with
  | some s => if s = "" then d else s
  | none => d

/-- String interpolation of a `number | undefined` value (`undefined` prints as such). -/
def optNatStr : Option Nat → String
  | some n => toString n
  | none => "undefined"

/-- Does `pat` occur at the start of `l`? -/
def startsWithList : List Char → List Char → Bool
  | _, [] => true
  | [], _ :: _ => false
  | c :: cs, p :: ps => c = p && startsWithList cs ps

/-- Does `pat` occur anywhere in `l`?  (Backs `String.prototype.includes`.) -/
def listContains : List Char → List Char → Bool
  | [], pat => pat.isEmpty
  | c :: cs, pat => startsWithList (c :: cs) pat || listContains cs pat

/-- Model of `String.prototype.includes`. -/
def containsSub (s pat : String) : Bool :=
  listContains s.data pat.data

/-- Reading `m[k] || 0` on a JavaScript object viewed as an association list. -/
def lookupD (m : List (String × Nat)) (k : String) : Nat :=
  match m with
  | [] => 0
  | (k', v) :: rest => if k' = k then v else lookupD rest k

/-- Writing `m[k] = v` on a JavaScript object: update in place if the key exists,
otherwise append (preserving insertion order). -/
def setKey (m : List (String × Nat)) (k : String) (v : Nat) : List (String × Nat) :=
  match m with
  | [] => [(k, v)]
  | (k', v') :: rest => if k' = k then (k, v) :: rest else (k', v') :: setKey rest k v

/-- The value of a settled `Except`, with a default for the error case. -/
def exceptGetD {ε α : Type} (e : Except ε α) (d : α) : α :=
  match e with
  | .ok a => a
  | .error _ => d

/-- Is an `Except` a success? -/
def isOkE {ε α : Type} : Except ε α → Bool
  | .ok _ => true
  | .error _ => false

/-! ### Data model (`github.ts`) -/

/-- Embedding of `GithubUserData`. -/
structure GithubUserData where
  username : String
  name : Option String
  bio : Option String
  publicRepos : Nat
  followers : Nat
  following : Nat
  createdAt : String
  avatarUrl : String
deriving DecidableEq

/-- The `parentRepository` payload `{ fullName, url }`. -/
structure ParentInfo where
  fullName : String
  url : String
deriving DecidableEq

/-- Embedding of `Repository` (the richer interface, with the optional fork fields).
Optional (`?:` / possibly-`undefined`) fields are `Option`s; a field the code
assigns a concrete value to is `some` of that value. -/
structure Repository where
  name : String
  description : Option String
  language : Option String
  languages : List (String × Nat)
  stargazersCount : Option Nat
  forksCount : Option Nat
  updatedAt : Option String
  topics : List String
  isArchived : Option Bool
  isFork : Bool
  readme : Option String
  parentRepository : Option ParentInfo
  hasContributions : Option Bool
  contributionsCount : Option Nat
deriving DecidableEq

/-- Embedding of `DeveloperProfile`. -/
structure DeveloperProfile where
  user : GithubUserData
  repositories : List Repository
  languageStats : List (String × Nat)
deriving DecidableEq

/-- One element of the raw `octokit.rest.repos.listForUser` response, together
with the responses of the per-repository follow-up calls the service makes
(`listLanguages`, `repos.get` for the parent, `listCommits` filtered by author).
These stand for the external data source. -/
structure RawRepo where
  name : String
  description : Option String
  language : Option String
  languages : List (String × Nat)
  stargazers_count : Option Nat
  forks_count : Option Nat
  updated_at : Option String
  topics : Option (List String)
  archived : Option Bool
  fork : Bool
  parent : Option ParentInfo
  authorCommits : Nat
deriving DecidableEq

/-! ### GitHub service: rate-limit handling -/

/-- The generic message thrown from the inner `catch` of `handleRateLimitError`. -/
def genericRateLimitMsg : String :=
  "GitHub API rate limit exceeded. Please try again in an hour or add a GitHub token for higher limits."

/-- The specific message built inside the inner `try` of `handleRateLimitError`. -/
def specificRateLimitMsg (minutes : Nat) (resetTimeStr : String) : String :=
  "GitHub API rate limit exceeded. Please try again in " ++ toString minutes ++
    " minutes (at " ++ resetTimeStr ++ "). Consider adding a GitHub token for higher limits."

/-- Value of `Math.ceil((resetDate.getTime() - Date.now()) / (1000 * 60))` where
`resetDate.getTime() = reset * 1000` (for the case `reset * 1000 ≥ nowMs`). -/
def minutesToWait (resetSec nowMs : Nat) : Nat :=
  (resetSec * 1000 - nowMs + 59999) / 60000

/-- Embedding of `GithubService.handleRateLimitError`.  The function always throws; the returned
string is the message of the thrown error.  `rateLimitFetch` is the result of
`octokit.rest.rateLimit.get()` (`ok` carries `data.rate.reset` in epoch seconds) and
`resetTimeStr` the locale-rendered reset time.

In the source the specific-minutes message is thrown *inside* the inner `try`
block, so the inner `catch (rateError)` catches it and throws the generic message
instead; only if the try block completed normally (impossible, it always throws)
would control fall through to the trailing `throw error`. -/
def handleRateLimitError (status : Nat) (message : String)
    (rateLimitFetch : Except String Nat) (nowMs : Nat) (resetTimeStr : String) : String :=
  if status = 403 && containsSub message "API rate limit exceeded" then
    let tryBlock : Except String Unit := do
      let reset ← rateLimitFetch
      throw (specificRateLimitMsg (minutesToWait reset nowMs) resetTimeStr)
    match tryBlock with
    | .error _ => genericRateLimitMsg
    | .ok _ => message
  else message

/-! ### GitHub service: language statistics -/

/-- The `languageStats` aggregation loop of `getDeveloperProfile` /
`submitProfile`: `stats[language] = (stats[language] || 0) + bytes` over every
language entry of every repository. -/
def computeLanguageStats (repositories : List Repository) : List (String × Nat) :=
  repositories.foldl
    (fun stats repo =>
      repo.languages.foldl (fun s p => setKey s p.1 (lookupD s p.1 + p.2)) stats)
    []

/-- Embedding of `GithubService.getDeveloperProfile`, with the already-fetched user metadata and
repository list as inputs (the two upstream calls are external). -/
def getDeveloperProfile (user : GithubUserData) (repositories : List Repository) :
    DeveloperProfile :=
  { user := user, repositories := repositories, languageStats := computeLanguageStats repositories }

/-! ### GitHub service: repository selection (`getUserRepositories`, rich version)

`Array.prototype.sort` with a consistent comparator is stable (ECMAScript 2019+),
so it is modelled by a stable insertion sort: an element may move past another
only when the comparator strictly requires it. -/

/-- Insert `x` (which preceded every element of `l` in the input) into the
already-sorted `l`, moving it past `y` only when `le x y` is false. -/
def jsInsert {α : Type} (le : α → α → Bool) (x : α) : List α → List α
  | [] => [x]
  | y :: ys => if le x y then x :: y :: ys else y :: jsInsert le x ys

/-- Stable sort modelling `Array.prototype.sort(cmp)`; `le a b` means
`cmp(a, b) <= 0`, i.e. `a` may stay before `b`. -/
def jsSort {α : Type} (le : α → α → Bool) : List α → List α
  | [] => []
  | x :: xs => jsInsert le x (jsSort le xs)

/-- The first comparator, `(a, b) => (b.stargazers_count || 0) - (a.stargazers_count || 0)`
as a may-stay-before relation. -/
def starLe (a b : RawRepo) : Bool :=
  decide (b.stargazers_count.getD 0 ≤ a.stargazers_count.getD 0)

/-- The final comparator: non-forks before forks, within a group by descending
star count (`cmp(a, b) <= 0`). -/
def forkLe (a b : Repository) : Bool :=
  if a.isFork = b.isFork then decide (b.stargazersCount.getD 0 ≤ a.stargazersCount.getD 0)
  else !a.isFork

/-- The body of the `filteredRepos.map` in `getUserRepositories`: build the
`Repository` record from the raw listing entry and its follow-up responses.
`parentRepository` stays `undefined` unless the repo is a fork whose parent
lookup yields a parent; the contribution check runs only in that same case and
otherwise the defaults `{ hasContributions: false, count: 0 }` are kept. -/
def enrich (repo : RawRepo) : Repository :=
  let contributionData : Bool × Nat :=
    match repo.fork, repo.parent with
    | true, some _ => (decide (repo.authorCommits > 0), repo.authorCommits)
    | _, _ => (false, 0)
  { name := repo.name
    description := repo.description
    language := repo.language
    languages := repo.languages
    stargazersCount := repo.stargazers_count
    forksCount := repo.forks_count
    updatedAt := repo.updated_at
    topics := repo.topics.getD []
    isArchived := repo.archived
    isFork := repo.fork
    readme := none
    parentRepository := if repo.fork then repo.parent else none
    hasContributions := some contributionData.1
    contributionsCount := some contributionData.2 }

/-- Embedding of `GithubService.getUserRepositories` (rich version): filter out archived
repositories, sort by descending star count, keep the first 15, enrich each
with languages / parent / contribution data, then sort non-forks first. -/
def getUserRepositories (listing : List RawRepo) : List Repository :=
  let filteredRepos :=
    (jsSort starLe (listing.filter (fun r => !(r.archived.getD false)))).take 15
  let reposWithDetails := filteredRepos.map enrich
  jsSort forkLe reposWithDetails

/-- Comparator `starLe` lifted through `enrich` to already-built repositories. -/
def starLeRepo (a b : Repository) : Bool :=
  decide (b.stargazersCount.getD 0 ≤ a.stargazersCount.getD 0)

/-- Comparator `forkLe` on raw listing entries (non-forks first, then descending stars). -/
def forkLeRaw (a b : RawRepo) : Bool :=
  if a.fork = b.fork then decide (b.stargazers_count.getD 0 ≤ a.stargazers_count.getD 0)
  else !a.fork

/-- Modelled from the spec (for comparison with `getUserRepositories`): the
claimed selection policy, under which the kept set itself is determined by the
ranking "non-forks above forks, within each group by descending star count,
ties in discovery order", truncated to the maximum of 15. -/
def specSelection (listing : List RawRepo) : List Repository :=
  ((jsSort forkLeRaw (listing.filter (fun r => !(r.archived.getD false)))).take 15).map enrich

/-! ### OpenAI service: prompt formatting (`prepareProfileData`) -/

/-- The JavaScript expression `((bytes / total) * 100).toFixed(1)`.
Division of 0 by 0 yields `NaN` and `n / 0` with `n > 0` yields `Infinity`,
which `toFixed` renders as the strings "NaN" / "Infinity"; otherwise the
quotient is rendered with one decimal digit.  The rounding of the finite case
approximates IEEE-754 `toFixed`; no theorem relies on the exact finite digits,
only on the `NaN` branch and on the zero-total sentinel branches that bypass
this function altogether. -/
def toFixed1Pct (bytes total : Nat) : String :=
  if total = 0 then (if bytes = 0 then "NaN" else "Infinity")
  else
    let tenths := (bytes * 1000 + total / 2) / total
    toString (tenths / 10) ++ "." ++ toString (tenths % 10)

/-- The `languagePercentages` part of `prepareProfileData`: each language with
its percentage of total bytes, or the fixed sentinel when the total is zero. -/
def formatLanguagePercentages (languageStats : List (String × Nat)) : String :=
  let totalBytes := (languageStats.map Prod.snd).sum
  if totalBytes > 0 then
    commaJoin (languageStats.map (fun p => p.1 ++ ": " ++ toFixed1Pct p.2 totalBytes ++ "%"))
  else "Language statistics not available"

/-- The `languages` local of the per-repository summary: a percentage breakdown
over the repository's own byte total when the language map is non-empty,
otherwise `repo.language || 'Not specified'`.  The non-empty branch divides by
the repository's byte sum with no zero-total guard. -/
def repoLanguagesStr (repo : Repository) : String :=
  if repo.languages.length > 0 then
    commaJoin (repo.languages.map
      (fun p => p.1 ++ " (" ++ toFixed1Pct p.2 ((repo.languages.map Prod.snd).sum) ++ "%)"))
  else jsOrStr repo.language "Not specified"

/-- One block of `repoSummaries` (the template literal, including its leading
newline). -/
def repoSummaryBlock (repo : Repository) : String :=
  "\nRepository: " ++ repo.name ++
  "\nDescription: " ++ jsOrStr repo.description "No description" ++
  "\nMain Language: " ++ jsOrStr repo.language "Not specified" ++
  "\nLanguages: " ++ repoLanguagesStr repo ++
  "\nStars: " ++ optNatStr repo.stargazersCount ++
  "\nForks: " ++ optNatStr repo.forksCount ++
  "\nTopics: " ++ (let t := commaJoin repo.topics; if t = "" then "None" else t) ++
  "\n" ++
  (if repo.isFork then
    "Forked: Yes" ++
      (if repo.hasContributions.getD false then
        ", Contributions: " ++ optNatStr repo.contributionsCount
      else "")
  else "Forked: No")

/-- Embedding of `OpenAIService.prepareProfileData`: `(languagePercentages, repoSummaries)`. -/
def prepareProfileData (profile : DeveloperProfile) : String × String :=
  (formatLanguagePercentages profile.languageStats,
   joinWithSep "\n---\n" (profile.repositories.map repoSummaryBlock))

/-! ### OpenAI service: bullet-list section parsing

The three list-valued analyzers all post-process the completion text with
`content.split('\n').map(line => line.replace(/^-\s*|\d+\.\s*/, '').trim()).filter(line => line)`.
The regex alternation anchors only its first alternative, so the second
alternative `\d+\.\s*` can match anywhere in the line; `replace` without the
global flag removes the leftmost match only. -/

/-- Model of `content.split('\n')` on char lists (empty input yields one empty line,
as in JavaScript). -/
def splitLines : List Char → List (List Char)
  | [] => [[]]
  | c :: cs =>
    if c = '\n' then [] :: splitLines cs
    else
      match splitLines cs with
      | [] => [[c]]
      | l :: ls => (c :: l) :: ls

/-- Try to match `\d+\.\s*` at the start of `l`; on success return the rest of
the line after the match.  (`\d+` is greedy and backtracking cannot help it:
after a maximal digit run the next character either is `.` or the match
fails.) -/
def matchNumDot (l : List Char) : Option (List Char) :=
  let ds := l.takeWhile Char.isDigit
  if ds.isEmpty then none
  else
    match l.drop ds.length with
    | '.' :: rest => some (rest.dropWhile isJsSpace)
    | _ => none

/-- Scan left to right for the first position where `\d+\.\s*` matches and
delete the match; keep the line unchanged if there is none. -/
def replaceNumDot : List Char → List Char
  | [] => []
  | c :: cs =>
    match matchNumDot (c :: cs) with
    | some rest => rest
    | none => c :: replaceNumDot cs

/-- Model of `line.replace(/^-\s*|\d+\.\s*/, '')`: at position 0 the anchored
alternative `^-\s*` is preferred; otherwise the leftmost occurrence of
`\d+\.\s*` anywhere in the line is removed. -/
def stripMarker (l : List Char) : List Char :=
  match l with
  | '-' :: rest => rest.dropWhile isJsSpace
  | _ => replaceNumDot l

/-- Result of `line.replace(...).trim()` with the result repacked as a string. -/
def processLine (l : List Char) : String :=
  ⟨trimChars (stripMarker l)⟩

/-- The shared body of `getStrengths` / `getAreasForImprovement` /
`getRecommendations`: `content` is the completion message content
(`undefined`/`null` or the text); falsy content (including `""`) throws the
section-specific error, otherwise the split/replace/trim/filter pipeline runs. -/
def parseBulletList (errMsg : String) (content : Option String) :
    Except String (List String) :=
  match content with
  | none => .error errMsg
  | some c =>
    if c = "" then .error errMsg
    else .ok (((splitLines c.data).map processLine).filter (fun s => !s.data.isEmpty))

/-- Embedding of `OpenAIService.getStrengths`, as a function of the completion content. -/
def getStrengths (content : Option String) : Except String (List String) :=
  parseBulletList "Failed to get strengths analysis" content

/-- Embedding of `OpenAIService.getAreasForImprovement`, as a function of the completion content. -/
def getAreasForImprovement (content : Option String) : Except String (List String) :=
  parseBulletList "Failed to get areas for improvement analysis" content

/-- Embedding of `OpenAIService.getRecommendations`, as a function of the completion content. -/
def getRecommendations (content : Option String) : Except String (List String) :=
  parseBulletList "Failed to get recommendations analysis" content

/-- Modelled from the spec (for comparison with `stripMarker`): strip a bullet
or numbering marker only when it is at the start of the line. -/
def stripLeadingMarkerOnly (l : List Char) : List Char :=
  match l with
  | '-' :: rest => rest.dropWhile isJsSpace
  | _ =>
    match matchNumDot l with
    | some rest => rest
    | none => l

/-- Modelled from the spec (for comparison with `getStrengths`): the claimed
parse of a non-empty completion — trimmed non-blank lines with only leading
markers stripped. -/
def specListParse (c : String) : List String :=
  ((splitLines c.data).map (fun l => (⟨trimChars (stripLeadingMarkerOnly l)⟩ : String))).filter
    (fun s => !s.data.isEmpty)

/-! ### OpenAI service: the analysis orchestrator (`analyzeDeveloperProfile`)

The five section analyzers are external completion+parse calls; their settled
results enter the model as a `SectionOutcomes` record.  The `onUpdate` callback
is an arbitrary state-passing function that may itself throw
(`σ → AnalysisUpdate → Except String σ`); the "no callback" case is the trivial
callback that returns its state unchanged.  The five `.then/.catch` handler
chains run their effects in launch order here; each handler touches a distinct
section of the report, so the final report does not depend on arrival order,
and `Promise.all` surfaces the first rejection after every chain has run. -/

/-- The type `AnalysisSection = keyof DeveloperAnalysis`. -/
inductive AnalysisSection where
  | strengths
  | areasForImprovement
  | recommendations
  | technicalAssessment
  | profileRating
deriving DecidableEq

/-- The `profileRating` payload `{ score, explanation }` (`score` is a JS
number; the orchestrator only passes scores through, so a rational carries
them exactly). -/
structure ProfileRating where
  score : Rat
  explanation : String
deriving DecidableEq

/-- The union `string[] | string | { score; explanation }` used for update
payloads. -/
inductive AnalysisData where
  | list : List String → AnalysisData
  | text : String → AnalysisData
  | rating : ProfileRating → AnalysisData
deriving DecidableEq

/-- The `AnalysisUpdate` record `{ section, data }` (the field `section` is a
Lean keyword, so it is called `sect` here). -/
structure AnalysisUpdate where
  sect : AnalysisSection
  data : AnalysisData
deriving DecidableEq

/-- The `DeveloperAnalysis` report. -/
structure DeveloperAnalysis where
  strengths : List String
  areasForImprovement : List String
  recommendations : List String
  technicalAssessment : String
  profileRating : ProfileRating
deriving DecidableEq

deriving instance DecidableEq for Except

/-- The settled results of the five `get*` section-analyzer calls. -/
structure SectionOutcomes where
  strengths : Except String (List String)
  areasForImprovement : Except String (List String)
  recommendations : Except String (List String)
  technicalAssessment : Except String String
  profileRating : Except String ProfileRating
deriving DecidableEq

/-- The assignment part of `updateSection`: `analysis[section] = data` (the
TypeScript code casts; mismatched section/data combinations do not occur at any
call site and leave the report unchanged here). -/
def updateSection (analysis : DeveloperAnalysis) (u : AnalysisUpdate) : DeveloperAnalysis :=
  match u.sect, u.data with
  | .strengths, .list l => { analysis with strengths := l }
  | .areasForImprovement, .list l => { analysis with areasForImprovement := l }
  | .recommendations, .list l => { analysis with recommendations := l }
  | .technicalAssessment, .text s => { analysis with technicalAssessment := s }
  | .profileRating, .rating r => { analysis with profileRating := r }
  | _, _ => analysis

/-- The running state of the five handler chains: the report under
construction, the callback state, and the first rejection (if any). -/
structure TaskState (σ : Type) where
  analysis : DeveloperAnalysis
  cbState : σ
  firstError : Option String

/-- One `promise.then(data => updateSection(sec, data)).catch(... updateSection(sec, fallback))`
chain.  On a successful outcome the section is set and the callback notified;
if the callback throws inside the `then` handler, the `catch` handler runs and
applies the fallback (notifying again); a callback throw inside the `catch`
handler rejects the chain.  On a failed outcome the `catch` handler applies the
fallback directly. -/
def runTask {σ : Type} (cb : σ → AnalysisUpdate → Except String σ)
    (ts : TaskState σ) (sec : AnalysisSection) (outcome : Except String AnalysisData)
    (fallback : AnalysisData) : TaskState σ :=
  match outcome with
  | .ok d =>
    let analysis := updateSection ts.analysis ⟨sec, d⟩
    match cb ts.cbState ⟨sec, d⟩ with
    | .ok st => { analysis := analysis, cbState := st, firstError := ts.firstError }
    | .error _ =>
      let analysis := updateSection analysis ⟨sec, fallback⟩
      match cb ts.cbState ⟨sec, fallback⟩ with
      | .ok st => { analysis := analysis, cbState := st, firstError := ts.firstError }
      | .error e =>
        { analysis := analysis, cbState := ts.cbState, firstError := ts.firstError <|> some e }
  | .error _ =>
    let analysis := updateSection ts.analysis ⟨sec, fallback⟩
    match cb ts.cbState ⟨sec, fallback⟩ with
    | .ok st => { analysis := analysis, cbState := st, firstError := ts.firstError }
    | .error e =>
      { analysis := analysis, cbState := ts.cbState, firstError := ts.firstError <|> some e }

/-- The fixed celebratory report of the reserved-handle special case. -/
def torvaldsAnalysis : DeveloperAnalysis :=
  { strengths := ["I created git bro"]
    areasForImprovement := ["I created git bro"]
    recommendations := ["I created git bro"]
    technicalAssessment := "I created git bro"
    profileRating := { score := 10, explanation := "I created git bro" } }

/-- The `Object.entries(analysis).forEach(([section, data]) => onUpdate(...))`
loop of the reserved-handle branch (entries iterate in insertion order; a
callback throw aborts the loop and propagates). -/
def notifyTorvalds {σ : Type} (cb : σ → AnalysisUpdate → Except String σ) (st : σ) :
    Except String σ := do
  let st ← cb st ⟨.strengths, .list torvaldsAnalysis.strengths⟩
  let st ← cb st ⟨.areasForImprovement, .list torvaldsAnalysis.areasForImprovement⟩
  let st ← cb st ⟨.recommendations, .list torvaldsAnalysis.recommendations⟩
  let st ← cb st ⟨.technicalAssessment, .text torvaldsAnalysis.technicalAssessment⟩
  cb st ⟨.profileRating, .rating torvaldsAnalysis.profileRating⟩

/-- Embedding of `OpenAIService.analyzeDeveloperProfile`.  Returns the settled
report and final callback state, or the error rethrown by the outer `catch`
(prefixed with its message template). -/
def analyzeDeveloperProfile {σ : Type} (cb : σ → AnalysisUpdate → Except String σ)
    (profile : DeveloperProfile) (outcomes : SectionOutcomes) (st0 : σ) :
    Except String (DeveloperAnalysis × σ) :=
  if jsToLower profile.user.username = "torvalds" then
    match notifyTorvalds cb st0 with
    | .ok st => .ok (torvaldsAnalysis, st)
    | .error e => .error ("Failed to analyze developer profile: " ++ e)
  else
    -- prepareProfileData is total on well-typed profiles, so it never throws here;
    -- its outputs only feed the prompts of the (external) completion calls.
    let _pd := prepareProfileData profile
    let ts0 : TaskState σ := ⟨⟨[], [], [], "", ⟨0, ""⟩⟩, st0, none⟩
    let ts1 := runTask cb ts0 .strengths (outcomes.strengths.map .list)
      (.list ["Failed to analyze strengths"])
    let ts2 := runTask cb ts1 .areasForImprovement (outcomes.areasForImprovement.map .list)
      (.list ["Failed to analyze areas for improvement"])
    let ts3 := runTask cb ts2 .recommendations (outcomes.recommendations.map .list)
      (.list ["Failed to get recommendations"])
    let ts4 := runTask cb ts3 .technicalAssessment (outcomes.technicalAssessment.map .text)
      (.text "Failed to get technical assessment")
    let ts5 := runTask cb ts4 .profileRating (outcomes.profileRating.map .rating)
      (.rating ⟨0, "Failed to get profile rating"⟩)
    match ts5.firstError with
    | some e => .error ("Failed to analyze developer profile: " ++ e)
    | none => .ok (ts5.analysis, ts5.cbState)

/-- The callback that records every update it receives (and never throws);
its state is the list of updates delivered so far. -/
def recordCb (st : List AnalysisUpdate) (u : AnalysisUpdate) :
    Except String (List AnalysisUpdate) :=
  .ok (st ++ [u])

/-- A callback that always throws. -/
def throwCb (_ : Unit) (_ : AnalysisUpdate) : Except String Unit :=
  .error "boom"

/-- The updates delivered on the non-reserved path in launch order: one per
section, carrying the analyzer value on success and the fixed fallback on
failure. -/
def expectedUpdates (o : SectionOutcomes) : List AnalysisUpdate :=
  [⟨.strengths, .list (exceptGetD o.strengths ["Failed to analyze strengths"])⟩,
   ⟨.areasForImprovement,
    .list (exceptGetD o.areasForImprovement ["Failed to analyze areas for improvement"])⟩,
   ⟨.recommendations, .list (exceptGetD o.recommendations ["Failed to get recommendations"])⟩,
   ⟨.technicalAssessment,
    .text (exceptGetD o.technicalAssessment "Failed to get technical assessment")⟩,
   ⟨.profileRating, .rating (exceptGetD o.profileRating ⟨0, "Failed to get profile rating"⟩)⟩]

/-- How many of the five section analyzers failed. -/
def failCount (o : SectionOutcomes) : Nat :=
  (if isOkE o.strengths then 0 else 1) + (if isOkE o.areasForImprovement then 0 else 1) +
    (if isOkE o.recommendations then 0 else 1) + (if isOkE o.technicalAssessment then 0 else 1) +
    (if isOkE o.profileRating then 0 else 1)

/-! ### Generic lemmas about the stable sort -/

theorem jsInsert_perm {α : Type} (le : α → α → Bool) (x : α) (l : List α) :
    (jsInsert le x l).Perm (x :: l) := by
  induction l with
  | nil => simp [jsInsert]
  | cons y ys ih =>
    by_cases h : le x y = true
    · simp [jsInsert, h]
    · simp only [jsInsert, if_neg h]
      exact (ih.cons y).trans (List.Perm.swap x y ys)

theorem jsSort_perm {α : Type} (le : α → α → Bool) (l : List α) :
    (jsSort le l).Perm l := by
  induction l with
  | nil => simp [jsSort]
  | cons x xs ih => exact (jsInsert_perm le x (jsSort le xs)).trans (ih.cons x)

theorem jsInsert_pairwise {α : Type} {le : α → α → Bool}
    (htrans : ∀ a b c, le a b = true → le b c = true → le a c = true)
    (htot : ∀ a b, le a b = true ∨ le b a = true)
    (x : α) {l : List α} (hl : l.Pairwise (fun a b => le a b = true)) :
    (jsInsert le x l).Pairwise (fun a b => le a b = true) := by
  induction l with
  | nil => simp [jsInsert]
  | cons y ys ih =>
    rcases List.pairwise_cons.1 hl with ⟨hy, hys⟩
    by_cases h : le x y = true
    · simp only [jsInsert, if_pos h]
      refine List.pairwise_cons.2 ⟨?_, hl⟩
      intro b hb
      rcases List.mem_cons.1 hb with rfl | hb'
      · exact h
      · exact htrans x y b h (hy b hb')
    · simp only [jsInsert, if_neg h]
      refine List.pairwise_cons.2 ⟨?_, ih hys⟩
      intro b hb
      have hb' : b ∈ x :: ys := (jsInsert_perm le x ys).mem_iff.1 hb
      rcases List.mem_cons.1 hb' with rfl | hb''
      · rcases htot b y with hby | hyb
        · exact absurd hby h
        · exact hyb
      · exact hy b hb''

theorem jsSort_pairwise {α : Type} {le : α → α → Bool}
    (htrans : ∀ a b c, le a b = true → le b c = true → le a c = true)
    (htot : ∀ a b, le a b = true ∨ le b a = true) (l : List α) :
    (jsSort le l).Pairwise (fun a b => le a b = true) := by
  induction l with
  | nil => simp [jsSort]
  | cons x xs ih => exact jsInsert_pairwise htrans htot x ih

theorem filter_jsInsert_pos {α : Type} {le : α → α → Bool} {p : α → Bool}
    (hp : ∀ a b, p a = true → p b = true → le a b = true)
    {x : α} (hx : p x = true) (l : List α) :
    (jsInsert le x l).filter p = x :: l.filter p := by
  induction l with
  | nil => simp [jsInsert, hx]
  | cons y ys ih =>
    by_cases h : le x y = true
    · simp [jsInsert, h, hx]
    · have hy : p y = false := by
        cases hpy : p y with
        | true => exact absurd (hp x y hx hpy) h
        | false => rfl
      simp [jsInsert, if_neg h, hy, ih]

theorem filter_jsInsert_neg {α : Type} (le : α → α → Bool) {p : α → Bool}
    {x : α} (hx : p x = false) (l : List α) :
    (jsInsert le x l).filter p = l.filter p := by
  induction l with
  | nil => simp [jsInsert, hx]
  | cons y ys ih =>
    by_cases h : le x y = true
    · simp [jsInsert, h, hx]
    · by_cases hy : p y = true <;> simp [jsInsert, if_neg h, hy, hx, ih]

/-- Stability: the sort does not reorder elements that the comparator cannot
distinguish (any class of elements on which `le` always holds). -/
theorem filter_jsSort {α : Type} {le : α → α → Bool} {p : α → Bool}
    (hp : ∀ a b, p a = true → p b = true → le a b = true) (l : List α) :
    (jsSort le l).filter p = l.filter p := by
  induction l with
  | nil => rfl
  | cons x xs ih =>
    cases hx : p x with
    | true => rw [jsSort, filter_jsInsert_pos hp hx, ih, List.filter_cons_of_pos hx]
    | false => rw [jsSort, filter_jsInsert_neg le hx, ih, List.filter_cons_of_neg (by simp [hx])]

theorem filter_map_comm {α β : Type} (f : α → β) (p : β → Bool) (l : List α) :
    (l.map f).filter p = (l.filter (fun a => p (f a))).map f := by
  induction l with
  | nil => rfl
  | cons x xs ih => by_cases h : p (f x) = true <;> simp [h, ih]

/-! ### Properties of the two comparators -/

theorem starLe_trans (a b c : RawRepo) (h1 : starLe a b = true) (h2 : starLe b c = true) :
    starLe a c = true := by
  simp only [starLe, decide_eq_true_eq] at *
  omega

theorem starLe_total (a b : RawRepo) : starLe a b = true ∨ starLe b a = true := by
  simp only [starLe, decide_eq_true_eq]
  omega

theorem forkLe_trans (a b c : Repository) (h1 : forkLe a b = true) (h2 : forkLe b c = true) :
    forkLe a c = true := by
  unfold forkLe at *
  cases ha : a.isFork <;> cases hb : b.isFork <;> cases hc : c.isFork <;>
    simp [ha, hb, hc] at * <;> omega

theorem forkLe_total (a b : Repository) : forkLe a b = true ∨ forkLe b a = true := by
  unfold forkLe
  cases ha : a.isFork <;> cases hb : b.isFork <;> simp [ha, hb] <;> omega

/-- The comparator's may-stay-before relation, spelled out. -/
theorem forkLe_iff (a b : Repository) :
    forkLe a b = true ↔
      (a.isFork = false ∧ b.isFork = true) ∨
        (a.isFork = b.isFork ∧ b.stargazersCount.getD 0 ≤ a.stargazersCount.getD 0) := by
  unfold forkLe
  cases ha : a.isFork <;> cases hb : b.isFork <;> simp [ha, hb]

/-! ### Lemmas about `trimChars` -/

theorem dropWhile_head_not {α : Type} (p : α → Bool) (l : List α) (c : α)
    (h : (l.dropWhile p).head? = some c) : p c = false := by
  induction l with
  | nil => simp [List.dropWhile] at h
  | cons x xs ih =>
    cases hx : p x with
    | true => rw [List.dropWhile_cons, hx] at h; exact ih (by simpa using h)
    | false =>
      rw [List.dropWhile_cons, hx] at h
      simp at h
      subst h
      exact hx

theorem dropWhile_eq_self_of_head {α : Type} (p : α → Bool) (l : List α)
    (h : ∀ c, l.head? = some c → p c = false) : l.dropWhile p = l := by
  cases l with
  | nil => rfl
  | cons x xs => rw [List.dropWhile_cons, h x rfl]; simp

theorem trimChars_idem (l : List Char) : trimChars (trimChars l) = trimChars l := by
  unfold trimChars
  set A := l.dropWhile isJsSpace with hA
  set R := A.reverse.dropWhile isJsSpace with hR
  have h1 : R.reverse.dropWhile isJsSpace = R.reverse := by
    apply dropWhile_eq_self_of_head
    intro c hc
    obtain ⟨s, hs⟩ := List.dropWhile_suffix (l := A.reverse) (p := isJsSpace)
    rw [← hR] at hs
    have hA2 : A = R.reverse ++ s.reverse := by
      have := congrArg List.reverse hs
      simpa [List.reverse_append] using this.symm
    have hhead : A.head? = some c := by
      rw [hA2]
      cases hrev : R.reverse with
      | nil => rw [hrev] at hc; simp at hc
      | cons d ds =>
        rw [hrev] at hc
        simp at hc
        simp [hc]
    exact dropWhile_head_not isJsSpace l c (hA ▸ hhead)
  rw [h1, List.reverse_reverse]
  have h2 : R.dropWhile isJsSpace = R := by
    apply dropWhile_eq_self_of_head
    intro c hc
    exact dropWhile_head_not isJsSpace A.reverse c (hR ▸ hc)
  rw [h2]

/-! ### Lemmas about `lookupD` / `setKey` and the language-stats fold -/

theorem lookupD_setKey_self (m : List (String × Nat)) (k : String) (v : Nat) :
    lookupD (setKey m k v) k = v := by
  induction m with
  | nil => simp [setKey, lookupD]
  | cons e rest ih =>
    obtain ⟨k', v'⟩ := e
    by_cases h : k' = k <;> simp [setKey, lookupD, h, ih]

theorem lookupD_setKey_ne (m : List (String × Nat)) (k k' : String) (v : Nat)
    (h : k ≠ k') : lookupD (setKey m k v) k' = lookupD m k' := by
  have h' : ¬(k' = k) := fun e => h e.symm
  induction m with
  | nil => simp [setKey, lookupD, h]
  | cons e rest ih =>
    obtain ⟨k0, v0⟩ := e
    by_cases h0 : k0 = k
    · subst h0
      simp [setKey, lookupD, h, h']
    · by_cases h1 : k0 = k'
      · subst h1
        simp [setKey, lookupD, h', h0]
      · simp [setKey, lookupD, h0, h1, ih]

theorem lookupD_eq_zero_of_not_mem (m : List (String × Nat)) (k : String)
    (h : k ∉ m.map Prod.fst) : lookupD m k = 0 := by
  induction m with
  | nil => rfl
  | cons e rest ih =>
    obtain ⟨k', v'⟩ := e
    simp only [List.map_cons, List.mem_cons] at h
    push_neg at h
    have hne : ¬(k' = k) := fun e => h.1 e.symm
    simp [lookupD, hne, ih h.2]

theorem lookupD_langs_foldl (langs : List (String × Nat)) (stats : List (String × Nat))
    (lang : String) (hnd : (langs.map Prod.fst).Nodup) :
    lookupD (langs.foldl (fun s p => setKey s p.1 (lookupD s p.1 + p.2)) stats) lang
      = lookupD stats lang + lookupD langs lang := by
  induction langs generalizing stats with
  | nil => simp [lookupD]
  | cons e rest ih =>
    obtain ⟨k, v⟩ := e
    simp only [List.map_cons, List.nodup_cons] at hnd
    rw [List.foldl_cons, ih _ hnd.2]
    by_cases h : k = lang
    · subst h
      rw [lookupD_setKey_self, lookupD_eq_zero_of_not_mem rest k hnd.1]
      simp [lookupD]
    · rw [lookupD_setKey_ne _ _ _ _ h]
      simp [lookupD, h]

theorem lookupD_computeLanguageStats (repos : List Repository) (lang : String)
    (h : ∀ r ∈ repos, (r.languages.map Prod.fst).Nodup) :
    lookupD (computeLanguageStats repos) lang
      = (repos.map (fun r => lookupD r.languages lang)).sum := by
  suffices H : ∀ init : List (String × Nat),
      lookupD (repos.foldl
        (fun stats repo =>
          repo.languages.foldl (fun s p => setKey s p.1 (lookupD s p.1 + p.2)) stats) init) lang
        = lookupD init lang + (repos.map (fun r => lookupD r.languages lang)).sum by
    simpa [computeLanguageStats, lookupD] using H []
  induction repos with
  | nil => intro init; simp
  | cons r rest ih =>
    intro init
    simp only [List.foldl_cons, List.map_cons, List.sum_cons]
    rw [ih (fun x hx => h x (List.mem_cons_of_mem r hx)),
      lookupD_langs_foldl _ _ _ (h r (List.mem_cons_self r rest))]
    omega

/-! ### Lemmas about the orchestrator -/

/-- With a callback that never throws, a handler chain never rejects. -/
theorem runTask_firstError {σ : Type} (cb : σ → AnalysisUpdate → Except String σ)
    (hcb : ∀ st u, isOkE (cb st u) = true) (ts : TaskState σ) (sec : AnalysisSection)
    (outcome : Except String AnalysisData) (fallback : AnalysisData) :
    (runTask cb ts sec outcome fallback).firstError = ts.firstError := by
  cases outcome with
  | ok d =>
    simp only [runTask]
    cases hc : cb ts.cbState ⟨sec, d⟩ with
    | ok st => rfl
    | error e =>
      have := hcb ts.cbState ⟨sec, d⟩
      rw [hc] at this
      simp [isOkE] at this
  | error e =>
    simp only [runTask]
    cases hc : cb ts.cbState ⟨sec, fallback⟩ with
    | ok st => rfl
    | error e' =>
      have := hcb ts.cbState ⟨sec, fallback⟩
      rw [hc] at this
      simp [isOkE] at this

/-- With a callback that never throws, the reserved-handle notification loop
completes. -/
theorem cb_ok_exists {σ : Type} (cb : σ → AnalysisUpdate → Except String σ)
    (hcb : ∀ st u, isOkE (cb st u) = true) (st : σ) (u : AnalysisUpdate) :
    ∃ st', cb st u = .ok st' := by
  cases hc : cb st u with
  | ok st' => exact ⟨st', rfl⟩
  | error e =>
    have := hcb st u
    rw [hc] at this
    simp [isOkE] at this

/-- With a callback that never throws, the reserved-handle notification loop
completes. -/
theorem notifyTorvalds_isOk {σ : Type} (cb : σ → AnalysisUpdate → Except String σ)
    (hcb : ∀ st u, isOkE (cb st u) = true) (st0 : σ) :
    isOkE (notifyTorvalds cb st0) = true := by
  unfold notifyTorvalds
  obtain ⟨s1, h1⟩ := cb_ok_exists cb hcb st0 ⟨.strengths, .list torvaldsAnalysis.strengths⟩
  obtain ⟨s2, h2⟩ := cb_ok_exists cb hcb s1
    ⟨.areasForImprovement, .list torvaldsAnalysis.areasForImprovement⟩
  obtain ⟨s3, h3⟩ := cb_ok_exists cb hcb s2
    ⟨.recommendations, .list torvaldsAnalysis.recommendations⟩
  obtain ⟨s4, h4⟩ := cb_ok_exists cb hcb s3
    ⟨.technicalAssessment, .text torvaldsAnalysis.technicalAssessment⟩
  obtain ⟨s5, h5⟩ := cb_ok_exists cb hcb s4
    ⟨.profileRating, .rating torvaldsAnalysis.profileRating⟩
  simp [Bind.bind, Except.bind, h1, h2, h3, h4, h5, isOkE, hcb]

/-- On the non-reserved path with the recording callback, the orchestrator
returns the slot-wise outcome-or-fallback report and delivers exactly the five
per-section updates. -/
theorem analyze_record_eq (profile : DeveloperProfile) (o : SectionOutcomes)
    (hname : jsToLower profile.user.username ≠ "torvalds") :
    analyzeDeveloperProfile recordCb profile o []
      = .ok ({ strengths := exceptGetD o.strengths ["Failed to analyze strengths"]
               areasForImprovement :=
                 exceptGetD o.areasForImprovement ["Failed to analyze areas for improvement"]
               recommendations := exceptGetD o.recommendations ["Failed to get recommendations"]
               technicalAssessment :=
                 exceptGetD o.technicalAssessment "Failed to get technical assessment"
               profileRating := exceptGetD o.profileRating ⟨0, "Failed to get profile rating"⟩ },
             expectedUpdates o) := by
  unfold analyzeDeveloperProfile
  rw [if_neg hname]
  obtain ⟨s, a, r, t, p⟩ := o
  cases s <;> cases a <;> cases r <;> cases t <;> cases p <;> rfl

/-! ### Concrete fixtures for counterexamples and witnesses -/

/-- A user whose handle is not the reserved one. -/
def aliceUser : GithubUserData :=
  { username := "alice", name := none, bio := none, publicRepos := 1, followers := 0,
    following := 0, createdAt := "2020-01-01T00:00:00Z", avatarUrl := "https://a.example/p.png" }

/-- A profile for the non-reserved path. -/
def profAlice : DeveloperProfile :=
  { user := aliceUser, repositories := [], languageStats := [] }

/-- A profile whose handle matches the reserved one up to case. -/
def profTorvalds : DeveloperProfile :=
  { user := { aliceUser with username := "TorvaldS" }, repositories := [], languageStats := [] }

/-- Four analyzers succeed, the technical assessment fails. -/
def outFourOneFail : SectionOutcomes :=
  { strengths := .ok ["s1", "s2"], areasForImprovement := .ok ["a1"],
    recommendations := .ok ["r1"], technicalAssessment := .error "CompletionError",
    profileRating := .ok ⟨7, "good"⟩ }

/-- All five analyzers succeed. -/
def outAllOk : SectionOutcomes :=
  { strengths := .ok ["s1"], areasForImprovement := .ok ["a1"], recommendations := .ok ["r1"],
    technicalAssessment := .ok "t", profileRating := .ok ⟨7, "good"⟩ }

/-- A non-archived, non-fork listing entry with zero stars. -/
def soloRaw : RawRepo :=
  { name := "solo", description := none, language := none, languages := [],
    stargazers_count := some 0, forks_count := none, updated_at := none, topics := none,
    archived := none, fork := false, parent := none, authorCommits := 0 }

/-- A non-archived fork listing entry with one star and a known parent. -/
def forkRaw : RawRepo :=
  { name := "fork1", description := none, language := none, languages := [],
    stargazers_count := some 1, forks_count := none, updated_at := none, topics := none,
    archived := none, fork := true, parent := some ⟨"up/f", "https://g.example/up/f"⟩,
    authorCommits := 2 }

/-- Fifteen one-star forks listed before a zero-star non-fork: the code's
star-only truncation drops the non-fork although the claimed fork-aware
ranking would keep it first. -/
def exListing : List RawRepo :=
  List.replicate 15 forkRaw ++ [soloRaw]

/-- A repository whose language map is non-empty but sums to zero bytes. -/
def zeroLangRepo : Repository :=
  { name := "empty", description := none, language := some "HTML",
    languages := [("HTML", 0)], stargazersCount := some 1, forksCount := some 0,
    updatedAt := none, topics := [], isArchived := some false, isFork := false,
    readme := none, parentRepository := none, hasContributions := some false,
    contributionsCount := some 0 }

/-- Two repositories with overlapping single-language byte maps. -/
def tsRepo : Repository :=
  { zeroLangRepo with name := "ts1", language := some "TypeScript",
                      languages := [("TypeScript", 70), ("CSS", 30)] }

/-- A second repository contributing to the same language. -/
def tsRepo2 : Repository :=
  { zeroLangRepo with name := "ts2", language := some "TypeScript",
                      languages := [("TypeScript", 30)] }

/-! ### Claim C2 (code bug): the specific retry-after message is never surfaced -/

/-- C2: when the data source fails with 403 quota exhaustion and the rate-limit
reset (12 minutes ahead: reset 720 s, now 0 ms) is obtainable, the claim says the
error message mentions "12 minutes".  In the code the specific-minutes error is
thrown inside the same `try` block whose `catch` produces the generic message,
so `handleRateLimitError` always throws the generic fixed-time message, which
does not mention "12 minutes" — even though the message it builds and discards
does. -/
theorem handleRateLimitError_always_generic_message :
    (∀ (reset nowMs : Nat) (resetTimeStr : String),
      handleRateLimitError 403 "API rate limit exceeded for user" (.ok reset) nowMs resetTimeStr
        = genericRateLimitMsg)
    ∧ containsSub genericRateLimitMsg "12 minutes" = false
    ∧ containsSub (specificRateLimitMsg (minutesToWait 720 0) "12:12:00 AM") "12 minutes" = true := by
  refine ⟨fun reset nowMs s => rfl, by decide, by decide⟩

/-! ### Claim C5: `languageStats` is the per-language sum over repositories -/

/-- C5: for every profile built by the aggregator, `languageStats` maps each
language to the sum of the included repositories' byte counts for it (the
repositories' language maps have unique keys, as JavaScript object keys do);
consequently appending a repository whose language map is exactly `[(lang, n)]`
increases the entry for `lang` by exactly `n`. -/
theorem languageStats_eq_sum (user : GithubUserData) (repos : List Repository) (lang : String)
    (h : ∀ r ∈ repos, (r.languages.map Prod.fst).Nodup) :
    lookupD (getDeveloperProfile user repos).languageStats lang
        = (repos.map (fun r => lookupD r.languages lang)).sum
    ∧ ∀ (r : Repository) (n : Nat), r.languages = [(lang, n)] →
        lookupD (getDeveloperProfile user (repos ++ [r])).languageStats lang
          = lookupD (getDeveloperProfile user repos).languageStats lang + n := by
  constructor
  · exact lookupD_computeLanguageStats repos lang h
  · intro r n hr
    have hall : ∀ x ∈ repos ++ [r], (x.languages.map Prod.fst).Nodup := by
      intro x hx
      rcases List.mem_append.1 hx with hx' | hx'
      · exact h x hx'
      · simp only [List.mem_singleton] at hx'
        subst hx'
        rw [hr]
        simp
    show lookupD (computeLanguageStats (repos ++ [r])) lang
      = lookupD (computeLanguageStats repos) lang + n
    rw [lookupD_computeLanguageStats _ _ hall, lookupD_computeLanguageStats repos lang h]
    simp [hr, lookupD]

theorem languageStats_eq_sum_witness :
    (∀ r ∈ [tsRepo, tsRepo2], (r.languages.map Prod.fst).Nodup)
    ∧ lookupD (getDeveloperProfile aliceUser [tsRepo, tsRepo2]).languageStats "TypeScript" = 100
    ∧ lookupD (getDeveloperProfile aliceUser ([tsRepo] ++ [tsRepo2])).languageStats "TypeScript"
        = lookupD (getDeveloperProfile aliceUser [tsRepo]).languageStats "TypeScript" + 30 :=
  ⟨by decide,
   ((languageStats_eq_sum aliceUser [tsRepo, tsRepo2] "TypeScript" (by decide)).1).trans (by decide),
   (languageStats_eq_sum aliceUser [tsRepo] "TypeScript" (by decide)).2 tsRepo2 30 (by decide)⟩

/-! ### Claim C6: the reserved-handle special case -/

/-- C6: for every profile whose username equals the reserved handle up to case,
the orchestrator returns the fixed celebratory report — for every assignment of
completion outcomes, i.e. without consulting the completion service — and the
recording callback receives exactly one update per section of the report. -/
theorem analyzeDeveloperProfile_reserved_handle (profile : DeveloperProfile)
    (o : SectionOutcomes) (h : jsToLower profile.user.username = "torvalds") :
    analyzeDeveloperProfile recordCb profile o []
      = .ok (torvaldsAnalysis,
             [⟨.strengths, .list ["I created git bro"]⟩,
              ⟨.areasForImprovement, .list ["I created git bro"]⟩,
              ⟨.recommendations, .list ["I created git bro"]⟩,
              ⟨.technicalAssessment, .text "I created git bro"⟩,
              ⟨.profileRating, .rating ⟨10, "I created git bro"⟩⟩]) := by
  unfold analyzeDeveloperProfile
  rw [if_pos h]
  rfl

theorem analyzeDeveloperProfile_reserved_handle_witness :
    jsToLower profTorvalds.user.username = "torvalds"
    ∧ analyzeDeveloperProfile recordCb profTorvalds outAllOk []
        = .ok (torvaldsAnalysis,
               [⟨.strengths, .list ["I created git bro"]⟩,
                ⟨.areasForImprovement, .list ["I created git bro"]⟩,
                ⟨.recommendations, .list ["I created git bro"]⟩,
                ⟨.technicalAssessment, .text "I created git bro"⟩,
                ⟨.profileRating, .rating ⟨10, "I created git bro"⟩⟩]) :=
  ⟨by decide, analyzeDeveloperProfile_reserved_handle profTorvalds outAllOk (by decide)⟩

/-! ### Claim C7: the zero-total language summary sentinel -/

/-- C7: on a profile whose language stats sum to zero bytes the language
summary formatter takes the sentinel branch (the dividing branch is not
evaluated) and returns the fixed "not available" string; the function is total,
so it never throws. -/
theorem formatLanguagePercentages_zero_total (stats : List (String × Nat))
    (h : (stats.map Prod.snd).sum = 0) :
    formatLanguagePercentages stats = "Language statistics not available" := by
  simp [formatLanguagePercentages, h]

theorem formatLanguagePercentages_zero_total_witness :
    (([("HTML", 0), ("CSS", 0)] : List (String × Nat)).map Prod.snd).sum = 0
    ∧ formatLanguagePercentages [("HTML", 0), ("CSS", 0)] = "Language statistics not available" :=
  ⟨by decide, formatLanguagePercentages_zero_total [("HTML", 0), ("CSS", 0)] (by decide)⟩

/-! ### Claim C10: per-repository breakdown divides by a zero byte total -/

/-- C10: for a repository whose language map is non-empty but sums to zero
bytes, the per-repository breakdown takes the dividing branch (the zero-total
guard of the profile-wide summary is absent here), each `0 / 0` renders as
`NaN`, and the output is the NaN-percentage list rather than the
primary-language fallback. -/
theorem repoLanguagesStr_zero_total_NaN (repo : Repository)
    (h1 : repo.languages ≠ []) (h2 : (repo.languages.map Prod.snd).sum = 0) :
    repoLanguagesStr repo = commaJoin (repo.languages.map (fun p => p.1 ++ " (NaN%)")) := by
  unfold repoLanguagesStr
  rw [if_pos (List.length_pos.2 h1)]
  congr 1
  apply List.map_congr_left
  intro p hp
  have hz : p.2 = 0 := List.sum_eq_zero_iff.1 h2 p.2 (List.mem_map_of_mem Prod.snd hp)
  rw [h2, hz]
  show p.1 ++ " (" ++ "NaN" ++ "%)" = p.1 ++ " (NaN%)"
  rw [String.append_assoc, String.append_assoc]
  rfl

theorem repoLanguagesStr_zero_total_NaN_witness :
    zeroLangRepo.languages ≠ [] ∧ (zeroLangRepo.languages.map Prod.snd).sum = 0
    ∧ repoLanguagesStr zeroLangRepo
        = commaJoin (zeroLangRepo.languages.map (fun p => p.1 ++ " (NaN%)"))
    ∧ commaJoin (zeroLangRepo.languages.map (fun p => p.1 ++ " (NaN%)")) = "HTML (NaN%)" :=
  ⟨by decide, by decide,
   repoLanguagesStr_zero_total_NaN zeroLangRepo (by decide) (by decide), by decide⟩

/-! ### Claim C1: four sections succeed, one falls back -/

/-- C1 counterexample: the claim quantifies over *every* profile, but for a
profile whose username matches the reserved handle the orchestrator ignores the
analyzers entirely: with four succeeding outcomes and one failing one, the
returned strengths are the celebratory placeholder, not the analyzer's value. -/
theorem analyzeDeveloperProfile_reserved_ignores_outcomes :
    failCount outFourOneFail = 1
    ∧ outFourOneFail.strengths = .ok ["s1", "s2"]
    ∧ (analyzeDeveloperProfile recordCb profTorvalds outFourOneFail []).map
        (fun res => res.1.strengths) = .ok ["I created git bro"]
    ∧ (["I created git bro"] : List String) ≠ ["s1", "s2"] :=
  ⟨rfl, rfl, rfl, by decide⟩

/-- C1 (amended with the reserved-handle exclusion): for every profile whose
username is not the reserved handle (case-insensitively) and every outcome
assignment in which exactly four analyzers succeed and one fails, the
orchestrator reaches the terminal report whose four succeeding sections hold
the analyzers' values and whose failing section holds its fixed fallback
placeholder, and the callback is invoked exactly five times, once per section. -/
theorem analyzeDeveloperProfile_four_ok_one_fallback (profile : DeveloperProfile)
    (o : SectionOutcomes) (hname : jsToLower profile.user.username ≠ "torvalds")
    (_hfail : failCount o = 1) :
    analyzeDeveloperProfile recordCb profile o []
      = .ok ({ strengths := exceptGetD o.strengths ["Failed to analyze strengths"]
               areasForImprovement :=
                 exceptGetD o.areasForImprovement ["Failed to analyze areas for improvement"]
               recommendations := exceptGetD o.recommendations ["Failed to get recommendations"]
               technicalAssessment :=
                 exceptGetD o.technicalAssessment "Failed to get technical assessment"
               profileRating := exceptGetD o.profileRating ⟨0, "Failed to get profile rating"⟩ },
             expectedUpdates o)
    ∧ (expectedUpdates o).length = 5
    ∧ (expectedUpdates o).map AnalysisUpdate.sect
        = [.strengths, .areasForImprovement, .recommendations, .technicalAssessment,
           .profileRating] :=
  ⟨analyze_record_eq profile o hname, rfl, rfl⟩

theorem analyzeDeveloperProfile_four_ok_one_fallback_witness :
    jsToLower profAlice.user.username ≠ "torvalds"
    ∧ failCount outFourOneFail = 1
    ∧ (analyzeDeveloperProfile recordCb profAlice outFourOneFail []
        = .ok ({ strengths := ["s1", "s2"], areasForImprovement := ["a1"],
                 recommendations := ["r1"],
                 technicalAssessment := "Failed to get technical assessment",
                 profileRating := ⟨7, "good"⟩ },
               expectedUpdates outFourOneFail)
       ∧ (expectedUpdates outFourOneFail).length = 5
       ∧ (expectedUpdates outFourOneFail).map AnalysisUpdate.sect
           = [.strengths, .areasForImprovement, .recommendations, .technicalAssessment,
              .profileRating]) :=
  ⟨by decide, rfl, by
    have h := analyzeDeveloperProfile_four_ok_one_fallback profAlice outFourOneFail
      (by decide) rfl
    exact ⟨h.1.trans rfl, h.2⟩⟩

/-! ### Claim C4: settlement and raising behaviour once sections are launched -/

/-- C4 counterexample: the claim quantifies over *every* supplied `onUpdate`
callback, but with a callback that itself throws, a run in which formatting
did not throw (it is total) and all five analyzers succeed still raises. -/
theorem analyzeDeveloperProfile_throwing_callback_raises :
    analyzeDeveloperProfile throwCb profAlice outAllOk ()
      = .error "Failed to analyze developer profile: boom" := rfl

/-- C4 (amended: the supplied callback must not itself throw): with any
non-throwing callback, for every profile, every combination of
section-analyzer successes and failures, and every initial callback state, the
orchestrator settles all sections and returns without raising (formatting is
total, so the only pre-launch failure source never fires). -/
theorem analyzeDeveloperProfile_settles {σ : Type}
    (cb : σ → AnalysisUpdate → Except String σ) (hcb : ∀ st u, isOkE (cb st u) = true)
    (profile : DeveloperProfile) (o : SectionOutcomes) (st0 : σ) :
    isOkE (analyzeDeveloperProfile cb profile o st0) = true := by
  unfold analyzeDeveloperProfile
  by_cases htor : jsToLower profile.user.username = "torvalds"
  · rw [if_pos htor]
    obtain ⟨st, hst⟩ : ∃ st, notifyTorvalds cb st0 = .ok st := by
      have h := notifyTorvalds_isOk cb hcb st0
      cases hn : notifyTorvalds cb st0 with
      | ok st => exact ⟨st, rfl⟩
      | error e => rw [hn] at h; simp [isOkE] at h
    rw [hst]
    rfl
  · rw [if_neg htor]
    simp only [runTask_firstError cb hcb, isOkE]

theorem analyzeDeveloperProfile_settles_witness :
    (∀ st u, isOkE (recordCb st u) = true)
    ∧ isOkE (analyzeDeveloperProfile recordCb profAlice outFourOneFail []) = true :=
  ⟨fun _ _ => rfl,
   analyzeDeveloperProfile_settles recordCb (fun _ _ => rfl) profAlice outFourOneFail []⟩

/-! ### Claim C8: bullet-list parsing -/

/-- C8 counterexample: the claim says only *leading* markers are stripped, but
the unanchored second regex alternative removes the first `digits.` occurrence
anywhere in the line: a line with no leading marker at all comes back altered,
while the claimed leading-only parse leaves it intact. -/
theorem getStrengths_strips_nonleading_marker :
    getStrengths (some "Shipped v1. Great") = .ok ["Shipped vGreat"]
    ∧ specListParse "Shipped v1. Great" = ["Shipped v1. Great"]
    ∧ (["Shipped vGreat"] : List String) ≠ ["Shipped v1. Great"] :=
  ⟨rfl, rfl, by decide⟩

/-- C8 (amended: the stripped marker is the first occurrence of a leading `-`
marker or of a `digits.` marker *anywhere* in the line, not only a leading
one): empty completion content is an error for each list analyzer rather than
an empty list, and for every non-empty completion the analyzer succeeds with
the split/strip/trim pipeline, every returned entry being non-blank and
trimmed. -/
theorem bulletList_sections_parse (c : String) (hc : c ≠ "") :
    getStrengths none = .error "Failed to get strengths analysis"
    ∧ getStrengths (some "") = .error "Failed to get strengths analysis"
    ∧ getAreasForImprovement (some "") = .error "Failed to get areas for improvement analysis"
    ∧ getRecommendations (some "") = .error "Failed to get recommendations analysis"
    ∧ getStrengths (some c)
        = .ok (((splitLines c.data).map processLine).filter (fun s => !s.data.isEmpty))
    ∧ ∀ s ∈ ((splitLines c.data).map processLine).filter (fun s => !s.data.isEmpty),
        s ≠ "" ∧ (⟨trimChars s.data⟩ : String) = s := by
  refine ⟨rfl, rfl, rfl, rfl, ?_, ?_⟩
  · unfold getStrengths parseBulletList
    exact if_neg hc
  · intro s hs
    rcases List.mem_filter.1 hs with ⟨hmem, hne⟩
    rcases List.mem_map.1 hmem with ⟨l, _, rfl⟩
    constructor
    · intro h
      rw [h] at hne
      simp at hne
    · show (⟨trimChars (processLine l).data⟩ : String) = processLine l
      unfold processLine
      exact congrArg String.mk (trimChars_idem (stripMarker l))

theorem bulletList_sections_parse_witness :
    ("- alpha\n \n2. beta" : String) ≠ ""
    ∧ getStrengths (some "- alpha\n \n2. beta") = .ok ["alpha", "beta"] :=
  ⟨by decide, ((bulletList_sections_parse "- alpha\n \n2. beta" (by decide)).2.2.2.2.1).trans rfl⟩

/-! ### Claim C9: fork-only fields -/

/-- C9 counterexample: a produced non-fork repository still carries the
contribution fields — `hasContributions` is present with value `false` and
`contributionsCount` with value `0` — contradicting "non-fork repositories
carry none of these fields". -/
theorem getUserRepositories_nonfork_fields_present :
    (getUserRepositories [soloRaw]).map
        (fun r => (r.isFork, r.hasContributions, r.contributionsCount))
      = [(false, some false, some 0)] := rfl

/-- C9 (amended): for every repository produced by the aggregator,
`parentRepository` is present only when the repository is a fork, while
`hasContributions` and `contributionsCount` are always present — carrying
`false` / `0` whenever the repository is not a fork (or the parent lookup
found no parent). -/
theorem getUserRepositories_fork_fields (listing : List RawRepo) (r : Repository)
    (hr : r ∈ getUserRepositories listing) :
    (r.parentRepository.isSome = true → r.isFork = true)
    ∧ r.hasContributions.isSome = true
    ∧ r.contributionsCount.isSome = true
    ∧ (r.isFork = false → r.hasContributions = some false ∧ r.contributionsCount = some 0) := by
  have hmem : r ∈ ((jsSort starLe
      (listing.filter (fun x => !(x.archived.getD false)))).take 15).map enrich :=
    (jsSort_perm forkLe _).mem_iff.1 hr
  rcases List.mem_map.1 hmem with ⟨raw, _, rfl⟩
  cases hf : raw.fork <;> cases hp : raw.parent <;> simp [enrich, hf, hp]

theorem getUserRepositories_fork_fields_witness :
    (enrich soloRaw) ∈ getUserRepositories [soloRaw]
    ∧ (((enrich soloRaw).parentRepository.isSome = true → (enrich soloRaw).isFork = true)
       ∧ (enrich soloRaw).hasContributions.isSome = true
       ∧ (enrich soloRaw).contributionsCount.isSome = true
       ∧ ((enrich soloRaw).isFork = false →
           (enrich soloRaw).hasContributions = some false
           ∧ (enrich soloRaw).contributionsCount = some 0)) :=
  ⟨by decide, getUserRepositories_fork_fields [soloRaw] (enrich soloRaw) (by decide)⟩

/-! ### Claim C3: the repository selection and ranking -/

/-- C3 counterexample: the kept set is *not* determined by the claimed
fork-aware ranking.  With fifteen one-star forks listed before a zero-star
non-fork, the code truncates after sorting by stars alone and drops the
non-fork, although the claimed ranking (non-forks above all forks) keeps it —
and in first position. -/
theorem getUserRepositories_kept_not_rank_determined :
    "solo" ∈ (specSelection exListing).map Repository.name
    ∧ "solo" ∉ (getUserRepositories exListing).map Repository.name := by
  decide

/-- C3 (amended: the kept set is the top 15 non-archived repositories by
descending star count — fork status only affects the final ordering): every
produced repository is non-archived; at most 15 are kept, namely a permutation
of the star-ranked top 15 of the non-archived listing; in the output every
non-fork precedes every fork and within a fork/non-fork group star counts are
descending; and elements tied on (fork status, star count) keep their
discovery order (the filtered output is a subsequence of the filtered
enriched listing). -/
theorem getUserRepositories_ranking (listing : List RawRepo) :
    (∀ r ∈ getUserRepositories listing, r.isArchived.getD false = false)
    ∧ (getUserRepositories listing).length ≤ 15
    ∧ (getUserRepositories listing).Perm
        (((jsSort starLe (listing.filter (fun x => !(x.archived.getD false)))).take 15).map enrich)
    ∧ (getUserRepositories listing).Pairwise (fun a b =>
        (a.isFork = false ∧ b.isFork = true)
        ∨ (a.isFork = b.isFork ∧ b.stargazersCount.getD 0 ≤ a.stargazersCount.getD 0))
    ∧ ∀ (f : Bool) (s : Nat),
        ((getUserRepositories listing).filter
            (fun r => decide (r.isFork = f ∧ r.stargazersCount.getD 0 = s))).Sublist
          (((listing.filter (fun x => !(x.archived.getD false))).map enrich).filter
            (fun r => decide (r.isFork = f ∧ r.stargazersCount.getD 0 = s))) := by
  have hL : getUserRepositories listing
      = jsSort forkLe (((jsSort starLe
          (listing.filter (fun x => !(x.archived.getD false)))).take 15).map enrich) := rfl
  refine ⟨?_, ?_, ?_, ?_, ?_⟩
  · intro r hr
    rw [hL] at hr
    have hr2 := (jsSort_perm forkLe _).mem_iff.1 hr
    rcases List.mem_map.1 hr2 with ⟨raw, hraw, rfl⟩
    have hraw2 : raw ∈ jsSort starLe
        (listing.filter (fun x => !(x.archived.getD false))) :=
      List.take_subset 15 _ hraw
    have hraw3 := (jsSort_perm starLe _).mem_iff.1 hraw2
    have harch := (List.mem_filter.1 hraw3).2
    show raw.archived.getD false = false
    simpa using harch
  · rw [hL, (jsSort_perm forkLe _).length_eq, List.length_map]
    exact List.length_take_le 15 _
  · rw [hL]
    exact jsSort_perm forkLe _
  · rw [hL]
    exact (jsSort_pairwise forkLe_trans forkLe_total _).imp fun h => (forkLe_iff _ _).1 h
  · intro f s
    rw [hL]
    have hp : ∀ a b : Repository,
        decide (a.isFork = f ∧ a.stargazersCount.getD 0 = s) = true →
        decide (b.isFork = f ∧ b.stargazersCount.getD 0 = s) = true →
        forkLe a b = true := by
      intro a b ha hb
      rw [decide_eq_true_eq] at ha hb
      exact (forkLe_iff a b).2 (Or.inr ⟨ha.1.trans hb.1.symm, by rw [ha.2, hb.2]⟩)
    have hq : ∀ a b : RawRepo,
        decide ((enrich a).isFork = f ∧ (enrich a).stargazersCount.getD 0 = s) = true →
        decide ((enrich b).isFork = f ∧ (enrich b).stargazersCount.getD 0 = s) = true →
        starLe a b = true := by
      intro a b ha hb
      rw [decide_eq_true_eq] at ha hb
      have ha2 : a.stargazers_count.getD 0 = s := ha.2
      have hb2 : b.stargazers_count.getD 0 = s := hb.2
      simp [starLe, ha2, hb2]
    rw [filter_jsSort hp]
    simp only [filter_map_comm]
    apply List.Sublist.map
    rw [← filter_jsSort hq (listing.filter (fun x => !(x.archived.getD false)))]
    exact (List.take_sublist 15 _).filter _

theorem getUserRepositories_ranking_witness :
    (enrich forkRaw) ∈ getUserRepositories exListing
    ∧ (enrich forkRaw).isArchived.getD false = false
    ∧ (getUserRepositories exListing).length ≤ 15
    ∧ ((getUserRepositories exListing).filter
          (fun r => decide (r.isFork = true ∧ r.stargazersCount.getD 0 = 1))).Sublist
        (((exListing.filter (fun x => !(x.archived.getD false))).map enrich).filter
          (fun r => decide (r.isFork = true ∧ r.stargazersCount.getD 0 = 1))) :=
  ⟨by decide,
   (getUserRepositories_ranking exListing).1 (enrich forkRaw) (by decide),
   (getUserRepositories_ranking exListing).2.1,
   (getUserRepositories_ranking exListing).2.2.2.2 true 1⟩

end GitMentor
